import Mathlib

/-!
Shallow embedding of `src/library/index.ts` (namespace `ms`), a runtime
value-validation library, together with proofs about its validators.

Modelling conventions:
* JS values are the inductive `ms.JsVal`.  Objects and arrays carry an
  identity tag (`id`) modelling the JS heap reference: strict equality
  (`===`) on composite values compares references, never structure.
* JS numbers are IEEE doubles; every numeric value exercised by the
  properties below is integral, so the embedding uses `Int`.  NaN, -0 and
  fractional/exponent literal forms lie outside this integer model, and
  `ToNumber` of a non-integral numeric string is folded into the NaN case
  (`Option.none`).
* String `length` counts Lean characters where JS counts UTF-16 units;
  the difference is irrelevant to the properties proved here.
* A validator's `test` and `error` return `Except JsErr _` because the
  underlying JS can throw: property access on `null`/`undefined` raises a
  TypeError, and so does implicit string/number coercion of a symbol.
-/

namespace ms

mutual
inductive JsVal where
  | vstr (s : String)
  | vnum (n : Int)
  | vbool (b : Bool)
  | vnull
  | vundefined
  | vobj (id : Nat) (fields : JsFields)
  | varr (id : Nat) (elems : JsElems)
  | vsym (id : Nat)
  | vbig (i : Int)

/-- Own enumerable fields of an object, in insertion order, keys distinct. -/
inductive JsFields where
  | nil
  | cons (key : String) (val : JsVal) (rest : JsFields)

inductive JsElems where
  | nil
  | cons (head : JsVal) (rest : JsElems)
end

/-- Errors a JS evaluation can produce: a host TypeError, or the error the
library itself throws from `parse` (the spec's ValidationError). -/
inductive JsErr where
  | typeError
  | validationError (msg : String)

/-- The JS `typeof` operator. -/
def typeof : JsVal → String
  | .vstr _ => "string"
  | .vnum _ => "number"
  | .vbool _ => "boolean"
  | .vnull => "object"
  | .vundefined => "undefined"
  | .vobj _ _ => "object"
  | .varr _ _ => "object"
  | .vsym _ => "symbol"
  | .vbig _ => "bigint"

/-- JS strict equality `===`.  Composite values compare by reference
identity; `1 === 1n` and `null === undefined` are false. -/
def strictEq : JsVal → JsVal → Bool
  | .vstr a, .vstr b => a == b
  | .vnum a, .vnum b => a == b
  | .vbool a, .vbool b => a == b
  | .vnull, .vnull => true
  | .vundefined, .vundefined => true
  | .vobj i _, .vobj j _ => i == j
  | .varr i _, .varr j _ => i == j
  | .vsym i, .vsym j => i == j
  | .vbig a, .vbig b => a == b
  | _, _ => false

def fieldsLookup : JsFields → String → Option JsVal
  | .nil, _ => none
  | .cons k v rest, key => if k == key then some v else fieldsLookup rest key

def elemsLen : JsElems → Nat
  | .nil => 0
  | .cons _ rest => elemsLen rest + 1

def elemsGet : JsElems → Nat → Option JsVal
  | .nil, _ => none
  | .cons v _, 0 => some v
  | .cons _ rest, n + 1 => elemsGet rest n

def lengthKey : String := "length"

/-- Digit run to its value; `none` when some character is not a digit. -/
def digitsVal : List Char → Option Nat
  | [] => none
  | cs =>
    if cs.all Char.isDigit then
      some (cs.foldl (fun a c => a * 10 + (c.toNat - 48)) 0)
    else none

/-- JS `ToNumber` on a string, in the integer model: trimmed empty string
is 0, an optionally signed digit run is its value, anything else is NaN
(`none`). -/
def strToNumber (s : String) : Option Int :=
  let t := s.trim
  if t.isEmpty then some 0 else
  match t.data with
  | [] => some 0
  | c :: cs =>
    if c = '-' then (digitsVal cs).map (fun n => -(n : Int))
    else if c = '+' then (digitsVal cs).map (fun n => (n : Int))
    else (digitsVal (c :: cs)).map (fun n => (n : Int))

/-- A canonical array-index string: a digit run without a leading zero. -/
def strToIndex (s : String) : Option Nat :=
  match s.data with
  | [] => none
  | c :: cs =>
    if (c :: cs).all Char.isDigit && (c != '0' || cs.isEmpty) then
      some ((c :: cs).foldl (fun a ch => a * 10 + (ch.toNat - 48)) 0)
    else none

mutual
/-- JS abstract `ToString`: throws a TypeError on a symbol; arrays join
their elements with `,`, rendering `null`/`undefined` elements as empty. -/
def jsToString : JsVal → Except JsErr String
  | .vstr s => .ok s
  | .vnum n => .ok (toString n)
  | .vbool b => .ok (if b then ("true") else ("false"))
  | .vnull => .ok ("null")
  | .vundefined => .ok ("undefined")
  | .vobj _ _ => .ok ("[object Object]")
  | .varr _ es => do
    let ss ← elemsToStrings es
    pure (String.intercalate ("," ) ss)
  | .vsym _ => .error .typeError
  | .vbig i => .ok (toString i)

def elemsToStrings : JsElems → Except JsErr (List String)
  | .nil => pure []
  | .cons v rest => do
    let s ← match v with
      | .vnull => pure ("")
      | .vundefined => pure ("")
      | _ => jsToString v
    let ss ← elemsToStrings rest
    pure (s :: ss)
end

/-- Explicit `v.toString()` method call: unlike implicit coercion this
succeeds on a symbol. -/
def jsToStringMethod : JsVal → Except JsErr String
  | .vsym _ => .ok ("Symbol()")
  | v => jsToString v

/-- Rendering of the source template fragment `${value?.toString()}`: the
optional chain yields `undefined` on `null`/`undefined`, which the template
prints as the word `undefined`. -/
def optChainToString : JsVal → Except JsErr String
  | .vnull => .ok ("undefined")
  | .vundefined => .ok ("undefined")
  | v => jsToStringMethod v

/-- Element rendering inside `values.map(v => v?.toString()).join(", ")`:
`Array.prototype.join` prints an `undefined` entry as the empty string. -/
def joinElemToString : JsVal → Except JsErr String
  | .vnull => .ok ("")
  | .vundefined => .ok ("")
  | v => jsToStringMethod v

/-- JS `ToNumber` for the non-bigint operand of a relational comparison;
`none` is NaN.  Objects coerce through their default string conversion. -/
def toNumberOpt : JsVal → Except JsErr (Option Int)
  | .vnum n => .ok (some n)
  | .vstr s => .ok (strToNumber s)
  | .vbool b => .ok (some (if b then 1 else 0))
  | .vnull => .ok (some 0)
  | .vundefined => .ok none
  | .vsym _ => .error .typeError
  | .vbig i => .ok (some i)
  | .vobj _ _ => .ok none
  | .varr _ es => do
    let ss ← elemsToStrings es
    pure (strToNumber (String.intercalate ("," ) ss))

/-- JS `x >= m` where `m` is a number literal: bigints compare
mathematically, symbols throw, NaN comparisons are false. -/
def jsGE (x : JsVal) (m : Int) : Except JsErr Bool :=
  match x with
  | .vbig i => .ok (decide (m ≤ i))
  | v => do
    match ← toNumberOpt v with
    | none => pure false
    | some i => pure (decide (m ≤ i))

/-- JS `x <= m` where `m` is a number literal. -/
def jsLE (x : JsVal) (m : Int) : Except JsErr Bool :=
  match x with
  | .vbig i => .ok (decide (i ≤ m))
  | v => do
    match ← toNumberOpt v with
    | none => pure false
    | some i => pure (decide (i ≤ m))

/-- JS property access `value[key]`: throws a TypeError on
`null`/`undefined`; strings and arrays expose `length` and indices;
objects look up their own fields; other primitives yield `undefined`. -/
def jsGetProp (value : JsVal) (key : String) : Except JsErr JsVal :=
  match value with
  | .vnull => .error .typeError
  | .vundefined => .error .typeError
  | .vstr s =>
    if key == lengthKey then .ok (.vnum (s.length : Int))
    else
      match strToIndex key with
      | some i =>
        match s.data.get? i with
        | some c => .ok (.vstr (String.mk [c]))
        | none => .ok .vundefined
      | none => .ok .vundefined
  | .vobj _ fields => .ok ((fieldsLookup fields key).getD .vundefined)
  | .varr _ elems =>
    if key == lengthKey then .ok (.vnum (elemsLen elems : Int))
    else
      match strToIndex key with
      | some i => .ok ((elemsGet elems i).getD .vundefined)
      | none => .ok .vundefined
  | _ => .ok .vundefined

/-- The library's sole entity: a membership predicate paired with a
failure-message generator (`ms.Validator` / `createValidator` in the
source; the spec calls the second component `describeFailure`). -/
structure Validator where
  test : JsVal → Except JsErr Bool
  error : JsVal → Except JsErr String

def createValidator (test : JsVal → Except JsErr Bool)
    (error : JsVal → Except JsErr String) : Validator :=
  ⟨test, error⟩

def string : Validator :=
  createValidator
    (fun value => .ok (typeof value == "string"))
    (fun value => .ok ("Expected string, got " ++ typeof value))

def number : Validator :=
  createValidator
    (fun value => .ok (typeof value == "number"))
    (fun value => .ok ("Expected number, got " ++ typeof value))

def boolean : Validator :=
  createValidator
    (fun value => .ok (typeof value == "boolean"))
    (fun value => .ok ("Expected boolean, got " ++ typeof value))

def symbol : Validator :=
  createValidator
    (fun value => .ok (typeof value == "symbol"))
    (fun value => .ok ("Expected symbol, got " ++ typeof value))

def bigint : Validator :=
  createValidator
    (fun value => .ok (typeof value == "bigint"))
    (fun value => .ok ("Expected bigint, got " ++ typeof value))

def nullable (validator : Validator) : Validator :=
  createValidator
    (fun value =>
      if strictEq value .vnull then .ok true else validator.test value)
    (fun value => do
      pure ("Expected null or " ++ (← validator.error value) ++ ", got " ++ typeof value))

def undefinable (validator : Validator) : Validator :=
  createValidator
    (fun value =>
      if strictEq value .vundefined then .ok true else validator.test value)
    (fun value => do
      pure ("Expected undefined or " ++ (← validator.error value) ++ ", got " ++ typeof value))

def literal (target : JsVal) : Validator :=
  createValidator
    (fun v => .ok (strictEq v target))
    (fun v => do
      pure ("Expected " ++ (← optChainToString target) ++ ", got " ++ (← optChainToString v)))

/-- `Array.prototype.includes` membership scan (SameValueZero, which
coincides with `===` in this NaN-free model). -/
def jsIncludes (values : List JsVal) (x : JsVal) : Bool :=
  values.any (fun v => strictEq v x)

def commaSep : String := ", "

def oneOf (values : List JsVal) : Validator :=
  createValidator
    (fun value => .ok (jsIncludes values value))
    (fun value => do
      let ss ← values.mapM joinElemToString
      pure ("Expected one of " ++ String.intercalate commaSep ss ++ ", got " ++ (← optChainToString value)))

def oneOfType (type : Validator) (values : List JsVal) : Validator :=
  createValidator
    (fun value => .ok (jsIncludes values value))
    (fun value => do
      let ss ← values.mapM type.error
      pure ("Expected one of " ++ String.intercalate commaSep ss ++ ", got " ++ (← optChainToString value)))

/-- The `Object.entries(validators).every(...)` loop of `ms.object`:
each declared key's validator runs on the value's entry at that key. -/
def objectTestGo : List (String × Validator) → JsVal → Except JsErr Bool
  | [], _ => .ok true
  | (key, validator) :: rest, value => do
    let fv ← jsGetProp value key
    let b ← validator.test fv
    if b then objectTestGo rest value else pure false

def object (validators : List (String × Validator)) : Validator :=
  createValidator
    (fun value =>
      if strictEq value .vnull then .ok false
      else if typeof value == "object" then objectTestGo validators value
      else .ok false)
    (fun value => .ok ("Expected object, got " ++ typeof value))

def arrayEvery (validator : Validator) : JsElems → Except JsErr Bool
  | .nil => .ok true
  | .cons v rest => do
    if (← validator.test v) then arrayEvery validator rest else pure false

def array (validator : Validator) : Validator :=
  createValidator
    (fun value =>
      match value with
      | .varr _ es => arrayEvery validator es
      | _ => .ok false)
    (fun value => .ok ("Expected array, got " ++ typeof value))

/-- `validators.some(validator => validator(value))`. -/
def someTest : List Validator → JsVal → Except JsErr Bool
  | [], _ => .ok false
  | v :: rest, value => do
    if (← v.test value) then pure true else someTest rest value

/-- `validators.every(validator => validator(value))`. -/
def everyTest : List Validator → JsVal → Except JsErr Bool
  | [], _ => .ok true
  | v :: rest, value => do
    if (← v.test value) then everyTest rest value else pure false

def union (validators : List Validator) : Validator :=
  createValidator
    (fun value => someTest validators value)
    (fun value => do
      let ss ← validators.mapM (fun v => v.error value)
      pure ("Expected one of " ++ String.intercalate commaSep ss ++ ", got " ++ (← optChainToString value)))

def intersection (validators : List Validator) : Validator :=
  createValidator
    (fun value => everyTest validators value)
    (fun value => do
      let ss ← validators.mapM (fun v => v.error value)
      pure ("Expected intersection of " ++ String.intercalate commaSep ss ++ ", got " ++ (← optChainToString value)))

def min (validator : Validator) (m : Int) : Validator :=
  createValidator
    (fun value => do
      if (← validator.test value) then jsGE value m else pure false)
    (fun value => do
      pure ("Expected " ++ (← validator.error value) ++ " >= " ++ toString m ++ ", got " ++ (← jsToString value)))

def max (validator : Validator) (m : Int) : Validator :=
  createValidator
    (fun value => do
      if (← validator.test value) then jsLE value m else pure false)
    (fun value => do
      pure ("Expected " ++ (← validator.error value) ++ " <= " ++ toString m ++ ", got " ++ (← jsToString value)))

def range (validator : Validator) (low : Int) (high : Int) : Validator :=
  createValidator
    (fun value => do
      if (← validator.test value) then
        if (← jsGE value low) then jsLE value high else pure false
      else pure false)
    (fun value => do
      pure ("Expected " ++ (← validator.error value) ++ " >= " ++ toString low ++ " && <= " ++ toString high ++ ", got " ++ (← jsToString value)))

def length (validator : Validator) (len : Int) : Validator :=
  createValidator
    (fun value => do
      if (← validator.test value) then do
        let l ← jsGetProp value lengthKey
        pure (strictEq l (.vnum len))
      else pure false)
    (fun value => do
      pure ("Expected " ++ (← validator.error value) ++ ".length === " ++ toString len ++ ", got " ++ (← jsToString value)))

def minLength (validator : Validator) (m : Int) : Validator :=
  createValidator
    (fun value => do
      if (← validator.test value) then do
        let l ← jsGetProp value lengthKey
        jsGE l m
      else pure false)
    (fun value => do
      pure ("Expected " ++ (← validator.error value) ++ ".length >= " ++ toString m ++ ", got " ++ (← jsToString value)))

def maxLength (validator : Validator) (m : Int) : Validator :=
  createValidator
    (fun value => do
      if (← validator.test value) then do
        let l ← jsGetProp value lengthKey
        jsLE l m
      else pure false)
    (fun value => do
      pure ("Expected " ++ (← validator.error value) ++ ".length <= " ++ toString m ++ ", got " ++ (← jsToString value)))

def rangeLength (validator : Validator) (low : Int) (high : Int) : Validator :=
  createValidator
    (fun value => do
      if (← validator.test value) then do
        let l1 ← jsGetProp value lengthKey
        if (← jsGE l1 low) then do
          let l2 ← jsGetProp value lengthKey
          jsLE l2 high
        else pure false
      else pure false)
    (fun value => do
      pure ("Expected " ++ (← validator.error value) ++ ".length >= " ++ toString low ++ " && <= " ++ toString high ++ ", got " ++ (← jsToString value)))

def parse (validator : Validator) (value : JsVal) : Except JsErr JsVal := do
  if (← validator.test value) then return value
  throw (JsErr.validationError (← validator.error value))

def parseUnknown (validator : Validator) (value : JsVal) : Except JsErr JsVal :=
  parse validator value

/-!
Syntax of validators buildable from the library's exported factories, used
to quantify over "every validator built from the library". -/

mutual
inductive VExpr where
  | estring
  | enumber
  | eboolean
  | esymbol
  | ebigint
  | enullable (e : VExpr)
  | eundefinable (e : VExpr)
  | eliteral (v : JsVal)
  | eoneOf (vs : List JsVal)
  | eoneOfType (t : VExpr) (vs : List JsVal)
  | eobject (shape : VShape)
  | earray (e : VExpr)
  | eunion (es : VList)
  | eintersection (es : VList)
  | emin (e : VExpr) (m : Int)
  | emax (e : VExpr) (m : Int)
  | erange (e : VExpr) (low high : Int)
  | elength (e : VExpr) (n : Int)
  | eminLength (e : VExpr) (m : Int)
  | emaxLength (e : VExpr) (m : Int)
  | erangeLength (e : VExpr) (low high : Int)

inductive VList where
  | nil
  | cons (e : VExpr) (rest : VList)

inductive VShape where
  | nil
  | cons (key : String) (e : VExpr) (rest : VShape)
end

mutual
/-- Interpretation of a validator expression by the library's factories. -/
def eval : VExpr → Validator
  | .estring => string
  | .enumber => number
  | .eboolean => boolean
  | .esymbol => symbol
  | .ebigint => bigint
  | .enullable e => nullable (eval e)
  | .eundefinable e => undefinable (eval e)
  | .eliteral v => literal v
  | .eoneOf vs => oneOf vs
  | .eoneOfType t vs => oneOfType (eval t) vs
  | .eobject sh => object (evalShape sh)
  | .earray e => array (eval e)
  | .eunion es => union (evalList es)
  | .eintersection es => intersection (evalList es)
  | .emin e m => min (eval e) m
  | .emax e m => max (eval e) m
  | .erange e low high => range (eval e) low high
  | .elength e n => length (eval e) n
  | .eminLength e m => minLength (eval e) m
  | .emaxLength e m => maxLength (eval e) m
  | .erangeLength e low high => rangeLength (eval e) low high

def evalList : VList → List Validator
  | .nil => []
  | .cons e rest => eval e :: evalList rest

def evalShape : VShape → List (String × Validator)
  | .nil => []
  | .cons key e rest => (key, eval e) :: evalShape rest
end

mutual
/-- True when the expression uses none of the numeric/length refinement
combinators (`min`, `max`, `range`, `length`, `minLength`, `maxLength`,
`rangeLength`). -/
def noRefinement : VExpr → Bool
  | .estring => true
  | .enumber => true
  | .eboolean => true
  | .esymbol => true
  | .ebigint => true
  | .enullable e => noRefinement e
  | .eundefinable e => noRefinement e
  | .eliteral _ => true
  | .eoneOf _ => true
  | .eoneOfType t _ => noRefinement t
  | .eobject sh => noRefinementShape sh
  | .earray e => noRefinement e
  | .eunion es => noRefinementList es
  | .eintersection es => noRefinementList es
  | .emin _ _ => false
  | .emax _ _ => false
  | .erange _ _ _ => false
  | .elength _ _ => false
  | .eminLength _ _ => false
  | .emaxLength _ _ => false
  | .erangeLength _ _ _ => false

def noRefinementList : VList → Bool
  | .nil => true
  | .cons e rest => noRefinement e && noRefinementList rest

def noRefinementShape : VShape → Bool
  | .nil => true
  | .cons _ e rest => noRefinement e && noRefinementShape rest
end

end ms

/-! Generic rewriting lemmas for `Except` binds as produced by do-notation. -/

@[simp]
theorem exceptBindOk {α β ε : Type} (a : α) (f : α → Except ε β) :
    (Except.ok a : Except ε α) >>= f = f a := rfl

@[simp]
theorem exceptBindErr {α β ε : Type} (e : ε) (f : α → Except ε β) :
    (Except.error e : Except ε α) >>= f = .error e := rfl

@[simp]
theorem exceptPureEq {α ε : Type} (a : α) : (pure a : Except ε α) = .ok a := rfl

@[simp]
theorem exceptThrowEq {α ε : Type} (e : ε) : (throw e : Except ε α) = .error e := rfl

theorem strictEq_vnull_iff (v : ms.JsVal) :
    ms.strictEq v .vnull = true ↔ v = .vnull := by
  cases v <;> simp [ms.strictEq]

/-- C7: each primitive validator accepts a value exactly when the value's
`typeof` tag is the validator's kind; a numeric string is not a number. -/
theorem claim_C7_primitive_tag_check : ∀ v : ms.JsVal,
    (ms.string.test v = .ok true ↔ ms.typeof v = "string") ∧
    (ms.number.test v = .ok true ↔ ms.typeof v = "number") ∧
    (ms.boolean.test v = .ok true ↔ ms.typeof v = "boolean") ∧
    (ms.symbol.test v = .ok true ↔ ms.typeof v = "symbol") ∧
    (ms.bigint.test v = .ok true ↔ ms.typeof v = "bigint") ∧
    ms.number.test (.vstr "123") = .ok false := by
  intro v
  refine ⟨?_, ?_, ?_, ?_, ?_, rfl⟩ <;>
    simp [ms.string, ms.number, ms.boolean, ms.symbol, ms.bigint, ms.createValidator]

/-- C2: `oneOf` accepts exactly the values strictly equal (`===`) to a
listed value; a value merely structurally equal to a listed composite
value (here: same fields, different reference) is rejected. -/
theorem claim_C2_oneOf_strict_membership :
    (∀ (vs : List ms.JsVal) (x : ms.JsVal),
      (ms.oneOf vs).test x = .ok (ms.jsIncludes vs x) ∧
      ((ms.oneOf vs).test x = .ok true ↔ ∃ v ∈ vs, ms.strictEq v x = true)) ∧
    (ms.oneOf [.vobj 0 (.cons "a" (.vnum 1) .nil)]).test
      (.vobj 1 (.cons "a" (.vnum 1) .nil)) = .ok false := by
  refine ⟨fun vs x => ⟨rfl, ?_⟩, rfl⟩
  simp [ms.oneOf, ms.createValidator, ms.jsIncludes, List.any_eq_true]

/-- C6: `oneOfType` tests a value exactly as `oneOf` does — the type
validator plays no part in the membership check, which is the strict
equality scan over the listed values. -/
theorem claim_C6_oneOfType_ignores_type :
    ∀ (T : ms.Validator) (vs : List ms.JsVal) (x : ms.JsVal),
      (ms.oneOfType T vs).test x = (ms.oneOf vs).test x ∧
      (ms.oneOfType T vs).test x = .ok (ms.jsIncludes vs x) :=
  fun _ _ _ => ⟨rfl, rfl⟩

/-- C3: `parse` returns the value unchanged when the validator accepts it,
and otherwise throws a ValidationError carrying exactly the validator's
failure message. -/
theorem claim_C3_parse_spec : ∀ (V : ms.Validator) (x : ms.JsVal),
    (V.test x = .ok true → ms.parse V x = .ok x) ∧
    (∀ msg, V.test x = .ok false → V.error x = .ok msg →
      ms.parse V x = .error (.validationError msg)) := by
  intro V x
  constructor
  · intro h
    simp [ms.parse, h]
  · intro msg h1 h2
    simp [ms.parse, h1, h2]

theorem claim_C3_witness :
    ms.string.test (.vnum 1) = .ok false ∧
    ms.string.error (.vnum 1) = .ok ("Expected string, got number") ∧
    ms.parse ms.string (.vnum 1) =
      .error (.validationError ("Expected string, got number")) :=
  ⟨rfl, rfl, (claim_C3_parse_spec ms.string (.vnum 1)).2 _ rfl rfl⟩

/-- C8: the numeric refinements accept exactly when the inner validator
accepts and the JS comparison with the bound holds, bounds inclusive;
`range(number, 0, 10)` behaves as specified on 5, -1, 11 and 10. -/
theorem claim_C8_numeric_refinements :
    (∀ (V : ms.Validator) (m : Int) (x : ms.JsVal),
      (ms.min V m).test x = .ok true ↔
        V.test x = .ok true ∧ ms.jsGE x m = .ok true) ∧
    (∀ (V : ms.Validator) (m : Int) (x : ms.JsVal),
      (ms.max V m).test x = .ok true ↔
        V.test x = .ok true ∧ ms.jsLE x m = .ok true) ∧
    (∀ (V : ms.Validator) (low high : Int) (x : ms.JsVal),
      (ms.range V low high).test x = .ok true ↔
        V.test x = .ok true ∧ ms.jsGE x low = .ok true ∧ ms.jsLE x high = .ok true) ∧
    (ms.range ms.number 0 10).test (.vnum 5) = .ok true ∧
    (ms.range ms.number 0 10).test (.vnum (-1)) = .ok false ∧
    (ms.range ms.number 0 10).test (.vnum 11) = .ok false ∧
    (ms.range ms.number 0 10).test (.vnum 10) = .ok true := by
  refine ⟨?_, ?_, ?_, rfl, rfl, rfl, rfl⟩
  · intro V m x
    cases ht : V.test x with
    | error e => simp [ms.min, ms.createValidator, ht]
    | ok b => cases b <;> simp [ms.min, ms.createValidator, ht]
  · intro V m x
    cases ht : V.test x with
    | error e => simp [ms.max, ms.createValidator, ht]
    | ok b => cases b <;> simp [ms.max, ms.createValidator, ht]
  · intro V low high x
    cases ht : V.test x with
    | error e => simp [ms.range, ms.createValidator, ht]
    | ok b =>
      cases b with
      | false => simp [ms.range, ms.createValidator, ht]
      | true =>
        cases hg : ms.jsGE x low with
        | error e => simp [ms.range, ms.createValidator, ht, hg]
        | ok c => cases c <;> simp [ms.range, ms.createValidator, ht, hg]

theorem someTest_ok_true_iff (Vs : List ms.Validator) (x : ms.JsVal)
    (h : ∀ V ∈ Vs, ∃ b, V.test x = .ok b) :
    ms.someTest Vs x = .ok true ↔ ∃ V ∈ Vs, V.test x = .ok true := by
  induction Vs with
  | nil => simp [ms.someTest]
  | cons V rest ih =>
    obtain ⟨b, hb⟩ := h V (List.mem_cons_self V rest)
    have ih2 := ih (fun W hW => h W (List.mem_cons_of_mem V hW))
    cases b <;> simp [ms.someTest, hb, ih2]

theorem everyTest_ok_true_iff (Vs : List ms.Validator) (x : ms.JsVal)
    (h : ∀ V ∈ Vs, ∃ b, V.test x = .ok b) :
    ms.everyTest Vs x = .ok true ↔ ∀ V ∈ Vs, V.test x = .ok true := by
  induction Vs with
  | nil => simp [ms.everyTest]
  | cons V rest ih =>
    obtain ⟨b, hb⟩ := h V (List.mem_cons_self V rest)
    have ih2 := ih (fun W hW => h W (List.mem_cons_of_mem V hW))
    cases b <;> simp [ms.everyTest, hb, ih2]

/-- C4: union tests as the pointwise OR of its children and intersection
as the pointwise AND, in binary form and for any number of children whose
tests return a boolean. -/
theorem claim_C4_union_intersection_pointwise :
    (∀ (A B : ms.Validator) (x : ms.JsVal) (a b : Bool),
      A.test x = .ok a → B.test x = .ok b →
      (ms.union [A, B]).test x = .ok (a || b) ∧
      (ms.intersection [A, B]).test x = .ok (a && b)) ∧
    (∀ (Vs : List ms.Validator) (x : ms.JsVal),
      (∀ V ∈ Vs, ∃ b, V.test x = .ok b) →
      ((ms.union Vs).test x = .ok true ↔ ∃ V ∈ Vs, V.test x = .ok true) ∧
      ((ms.intersection Vs).test x = .ok true ↔ ∀ V ∈ Vs, V.test x = .ok true)) := by
  constructor
  · intro A B x a b ha hb
    constructor <;> cases a <;> cases b <;>
      simp [ms.union, ms.intersection, ms.createValidator, ms.someTest, ms.everyTest, ha, hb]
  · intro Vs x h
    exact ⟨someTest_ok_true_iff Vs x h, everyTest_ok_true_iff Vs x h⟩

theorem claim_C4_witness :
    ms.string.test (.vnum 1) = .ok false ∧
    ms.number.test (.vnum 1) = .ok true ∧
    (ms.union [ms.string, ms.number]).test (.vnum 1) = .ok true ∧
    (ms.intersection [ms.string, ms.number]).test (.vnum 1) = .ok false :=
  ⟨rfl, rfl,
    (claim_C4_union_intersection_pointwise.1 ms.string ms.number (.vnum 1) false true rfl rfl).1,
    (claim_C4_union_intersection_pointwise.1 ms.string ms.number (.vnum 1) false true rfl rfl).2⟩

theorem jsGetProp_total (v : ms.JsVal) (h1 : v ≠ .vnull) (h2 : ms.typeof v = "object")
    (k : String) : ∃ fv, ms.jsGetProp v k = .ok fv := by
  cases v with
  | vnull => exact absurd rfl h1
  | vobj id fs => exact ⟨_, rfl⟩
  | varr id es =>
    simp only [ms.jsGetProp]
    split
    · exact ⟨_, rfl⟩
    · split
      · exact ⟨_, rfl⟩
      · exact ⟨_, rfl⟩
  | vstr s => simp only [ms.typeof] at h2; exact absurd h2 (by decide)
  | vnum n => simp only [ms.typeof] at h2; exact absurd h2 (by decide)
  | vbool b => simp only [ms.typeof] at h2; exact absurd h2 (by decide)
  | vundefined => simp only [ms.typeof] at h2; exact absurd h2 (by decide)
  | vsym id => simp only [ms.typeof] at h2; exact absurd h2 (by decide)
  | vbig i => simp only [ms.typeof] at h2; exact absurd h2 (by decide)

theorem objectTestGo_ok_true_iff (shape : List (String × ms.Validator)) (v : ms.JsVal)
    (hprop : ∀ k, ∃ fv, ms.jsGetProp v k = .ok fv)
    (htest : ∀ p ∈ shape, ∀ fv, ms.jsGetProp v p.1 = .ok fv → ∃ b, p.2.test fv = .ok b) :
    ms.objectTestGo shape v = .ok true ↔
      ∀ p ∈ shape, ∃ fv, ms.jsGetProp v p.1 = .ok fv ∧ p.2.test fv = .ok true := by
  induction shape with
  | nil => simp [ms.objectTestGo]
  | cons p rest ih =>
    obtain ⟨k, V⟩ := p
    obtain ⟨fv, hfv⟩ := hprop k
    obtain ⟨b, hb0⟩ := htest (k, V) (List.mem_cons_self _ _) fv hfv
    have hb : V.test fv = .ok b := hb0
    have ih2 := ih (fun q hq => htest q (List.mem_cons_of_mem _ hq))
    cases b with
    | false =>
      have hgo : ms.objectTestGo ((k, V) :: rest) v = .ok false := by
        simp [ms.objectTestGo, hfv, hb]
      rw [hgo]
      constructor
      · intro h
        exact absurd h (by simp)
      · intro h
        obtain ⟨fv2, hfv2, ht2⟩ := h (k, V) (List.mem_cons_self _ _)
        rw [hfv] at hfv2
        injection hfv2 with h3
        subst h3
        rw [hb] at ht2
        simp at ht2
    | true =>
      have hstep : ms.objectTestGo ((k, V) :: rest) v = ms.objectTestGo rest v := by
        simp [ms.objectTestGo, hfv, hb]
      rw [hstep, ih2]
      constructor
      · intro h p hp
        rcases List.mem_cons.mp hp with rfl | hp2
        · exact ⟨fv, hfv, hb⟩
        · exact h p hp2
      · intro h p hp
        exact h p (List.mem_cons_of_mem _ hp)

/-- C5: `object(shape)` accepts exactly the non-null object-kind values all
of whose declared-key entries pass their validators; extra keys are never
inspected, a wrong-typed declared key rejects, and `null` rejects. -/
theorem claim_C5_object_shape_semantics :
    (∀ (shape : List (String × ms.Validator)) (v : ms.JsVal),
      (∀ p ∈ shape, ∀ fv, ms.jsGetProp v p.1 = .ok fv → ∃ b, p.2.test fv = .ok b) →
      ((ms.object shape).test v = .ok true ↔
        v ≠ .vnull ∧ ms.typeof v = "object" ∧
          ∀ p ∈ shape, ∃ fv, ms.jsGetProp v p.1 = .ok fv ∧ p.2.test fv = .ok true)) ∧
    (ms.object [("name", ms.string)]).test
      (.vobj 0 (.cons "name" (.vstr "a") (.cons "extra" (.vnum 1) .nil))) = .ok true ∧
    (ms.object [("name", ms.string)]).test (.vobj 0 (.cons "name" (.vnum 1) .nil)) = .ok false ∧
    (ms.object [("name", ms.string)]).test .vnull = .ok false := by
  refine ⟨?_, rfl, rfl, rfl⟩
  intro shape v htest
  by_cases hv : v = .vnull
  · subst hv
    simp [ms.object, ms.createValidator, ms.strictEq]
  · have hsne : ms.strictEq v .vnull = false := by
      cases hq : ms.strictEq v .vnull
      · rfl
      · exact absurd ((strictEq_vnull_iff v).mp hq) hv
    cases hbty : (ms.typeof v == "object") with
    | false =>
      have hty : ms.typeof v ≠ "object" := by
        intro hh
        simp [hh] at hbty
      have hlhs : (ms.object shape).test v = .ok false := by
        simp [ms.object, ms.createValidator, hsne, hty]
      rw [hlhs]
      constructor
      · intro h
        exact absurd h (by simp)
      · rintro ⟨-, hty2, -⟩
        exact absurd hty2 hty
    | true =>
      have hty : ms.typeof v = "object" := by simpa using hbty
      have hprop := jsGetProp_total v hv hty
      have hlhs : (ms.object shape).test v = ms.objectTestGo shape v := by
        simp [ms.object, ms.createValidator, hsne, hty]
      rw [hlhs, objectTestGo_ok_true_iff shape v hprop htest]
      simp [hv, hty]

theorem claim_C5_witness :
    (ms.object ([] : List (String × ms.Validator))).test (.vobj 0 .nil) = .ok true ↔
      (ms.JsVal.vobj 0 .nil ≠ .vnull ∧ ms.typeof (ms.JsVal.vobj 0 .nil) = "object" ∧
        ∀ p ∈ ([] : List (String × ms.Validator)),
          ∃ fv, ms.jsGetProp (ms.JsVal.vobj 0 .nil) p.1 = .ok fv ∧ p.2.test fv = .ok true) :=
  claim_C5_object_shape_semantics.1 [] _ (by simp)

/-- C9: an array is of composite object kind and non-null, so it passes
`object`'s kind check; whenever every declared key of the shape is
satisfied by the array's entries, `object(shape)` accepts the array. -/
theorem claim_C9_object_accepts_array :
    ∀ (shape : List (String × ms.Validator)) (id : Nat) (es : ms.JsElems),
      (∀ p ∈ shape, ∃ fv, ms.jsGetProp (.varr id es) p.1 = .ok fv ∧ p.2.test fv = .ok true) →
      (ms.object shape).test (.varr id es) = .ok true := by
  intro shape id es h
  have hne : (ms.JsVal.varr id es) ≠ .vnull := fun hh => ms.JsVal.noConfusion hh
  have hty : ms.typeof (ms.JsVal.varr id es) = "object" := rfl
  have hprop := jsGetProp_total (.varr id es) hne hty
  have htest : ∀ p ∈ shape, ∀ fv, ms.jsGetProp (ms.JsVal.varr id es) p.1 = .ok fv →
      ∃ b, p.2.test fv = .ok b := by
    intro p hp fv hfv
    obtain ⟨fv0, hfv0, ht0⟩ := h p hp
    rw [hfv] at hfv0
    injection hfv0 with h3
    subst h3
    exact ⟨true, ht0⟩
  have hlhs : (ms.object shape).test (.varr id es) = ms.objectTestGo shape (.varr id es) := rfl
  rw [hlhs, objectTestGo_ok_true_iff shape (.varr id es) hprop htest]
  exact h

theorem claim_C9_witness : (ms.object []).test (.varr 0 .nil) = .ok true :=
  claim_C9_object_accepts_array [] 0 .nil (by simp)

theorem objectTestGo_congr (shape : List (String × ms.Validator)) (u v : ms.JsVal)
    (h : ∀ p ∈ shape, ms.jsGetProp u p.1 = ms.jsGetProp v p.1) :
    ms.objectTestGo shape u = ms.objectTestGo shape v := by
  induction shape with
  | nil => rfl
  | cons p rest ih =>
    obtain ⟨k, V⟩ := p
    have hk := h (k, V) (List.mem_cons_self _ _)
    have ih2 := ih (fun q hq => h q (List.mem_cons_of_mem _ hq))
    simp only [ms.objectTestGo, hk]
    cases hfv : ms.jsGetProp v k with
    | error e => simp [hfv]
    | ok fv =>
      cases hb : V.test fv with
      | error e => simp [hfv, hb]
      | ok b => cases b <;> simp [hfv, hb, ih2]

/-- C10: `object(shape).test` reads the value only at the declared keys
(an absent key reads as `undefined`), so two non-null object-kind values
agreeing there get the same verdict; a key whose validator accepts
`undefined` (e.g. via `undefinable`) is thereby optional. -/
theorem claim_C10_object_depends_only_on_declared_keys :
    (∀ (shape : List (String × ms.Validator)) (u v : ms.JsVal),
      u ≠ .vnull → v ≠ .vnull → ms.typeof u = "object" → ms.typeof v = "object" →
      (∀ p ∈ shape, ms.jsGetProp u p.1 = ms.jsGetProp v p.1) →
      (ms.object shape).test u = (ms.object shape).test v) ∧
    (ms.object [("a", ms.undefinable ms.string)]).test (.vobj 0 .nil) = .ok true ∧
    (ms.object [("a", ms.undefinable ms.string)]).test
      (.vobj 1 (.cons "a" .vundefined .nil)) = .ok true := by
  refine ⟨?_, rfl, rfl⟩
  intro shape u v hu hv htyu htyv hagree
  have hsu : ms.strictEq u .vnull = false := by
    cases hq : ms.strictEq u .vnull
    · rfl
    · exact absurd ((strictEq_vnull_iff u).mp hq) hu
  have hsv : ms.strictEq v .vnull = false := by
    cases hq : ms.strictEq v .vnull
    · rfl
    · exact absurd ((strictEq_vnull_iff v).mp hq) hv
  have h1 : (ms.object shape).test u = ms.objectTestGo shape u := by
    simp [ms.object, ms.createValidator, hsu, htyu]
  have h2 : (ms.object shape).test v = ms.objectTestGo shape v := by
    simp [ms.object, ms.createValidator, hsv, htyv]
  rw [h1, h2]
  exact objectTestGo_congr shape u v hagree

theorem claim_C10_witness :
    (ms.object [("a", ms.undefinable ms.string)]).test (.vobj 0 .nil) =
      (ms.object [("a", ms.undefinable ms.string)]).test (.vobj 1 (.cons "a" .vundefined .nil)) :=
  claim_C10_object_depends_only_on_declared_keys.1 [("a", ms.undefinable ms.string)]
    (.vobj 0 .nil) (.vobj 1 (.cons "a" .vundefined .nil))
    (fun hh => ms.JsVal.noConfusion hh) (fun hh => ms.JsVal.noConfusion hh) rfl rfl
    (by
      intro p hp
      rw [List.mem_singleton.mp hp]
      rfl)

theorem someTest_total (Vs : List ms.Validator) (x : ms.JsVal)
    (h : ∀ V ∈ Vs, ∃ b, V.test x = .ok b) : ∃ b, ms.someTest Vs x = .ok b := by
  induction Vs with
  | nil => exact ⟨false, rfl⟩
  | cons V rest ih =>
    obtain ⟨b, hb⟩ := h V (List.mem_cons_self V rest)
    obtain ⟨c, hc⟩ := ih (fun W hW => h W (List.mem_cons_of_mem V hW))
    cases b with
    | true => exact ⟨true, by simp [ms.someTest, hb]⟩
    | false => exact ⟨c, by simp [ms.someTest, hb, hc]⟩

theorem everyTest_total (Vs : List ms.Validator) (x : ms.JsVal)
    (h : ∀ V ∈ Vs, ∃ b, V.test x = .ok b) : ∃ b, ms.everyTest Vs x = .ok b := by
  induction Vs with
  | nil => exact ⟨true, rfl⟩
  | cons V rest ih =>
    obtain ⟨b, hb⟩ := h V (List.mem_cons_self V rest)
    obtain ⟨c, hc⟩ := ih (fun W hW => h W (List.mem_cons_of_mem V hW))
    cases b with
    | false => exact ⟨false, by simp [ms.everyTest, hb]⟩
    | true => exact ⟨c, by simp [ms.everyTest, hb, hc]⟩

theorem arrayEvery_total (V : ms.Validator) (h : ∀ y, ∃ b, V.test y = .ok b) :
    ∀ es, ∃ b, ms.arrayEvery V es = .ok b
  | .nil => ⟨true, rfl⟩
  | .cons v rest => by
    obtain ⟨b, hb⟩ := h v
    obtain ⟨c, hc⟩ := arrayEvery_total V h rest
    cases b with
    | false => exact ⟨false, by simp [ms.arrayEvery, hb]⟩
    | true => exact ⟨c, by simp [ms.arrayEvery, hb, hc]⟩

theorem objectTestGo_total (shape : List (String × ms.Validator)) (v : ms.JsVal)
    (hprop : ∀ k, ∃ fv, ms.jsGetProp v k = .ok fv)
    (h : ∀ p ∈ shape, ∀ y, ∃ b, p.2.test y = .ok b) :
    ∃ b, ms.objectTestGo shape v = .ok b := by
  induction shape with
  | nil => exact ⟨true, rfl⟩
  | cons p rest ih =>
    obtain ⟨k, V⟩ := p
    obtain ⟨fv, hfv⟩ := hprop k
    obtain ⟨b, hb0⟩ := h (k, V) (List.mem_cons_self _ _) fv
    have hb : V.test fv = .ok b := hb0
    obtain ⟨c, hc⟩ := ih (fun q hq => h q (List.mem_cons_of_mem _ hq))
    cases b with
    | false => exact ⟨false, by simp [ms.objectTestGo, hfv, hb]⟩
    | true => exact ⟨c, by simp [ms.objectTestGo, hfv, hb, hc]⟩

mutual

theorem evalTotal : ∀ (e : ms.VExpr), ms.noRefinement e = true →
    ∀ x, ∃ b, (ms.eval e).test x = .ok b
  | .estring, _, x => ⟨_, rfl⟩
  | .enumber, _, x => ⟨_, rfl⟩
  | .eboolean, _, x => ⟨_, rfl⟩
  | .esymbol, _, x => ⟨_, rfl⟩
  | .ebigint, _, x => ⟨_, rfl⟩
  | .enullable e, h, x => by
    have he : ms.noRefinement e = true := by simpa [ms.noRefinement] using h
    cases hq : ms.strictEq x .vnull with
    | true => exact ⟨true, by simp [ms.eval, ms.nullable, ms.createValidator, hq]⟩
    | false =>
      obtain ⟨b, hb⟩ := evalTotal e he x
      exact ⟨b, by simp [ms.eval, ms.nullable, ms.createValidator, hq, hb]⟩
  | .eundefinable e, h, x => by
    have he : ms.noRefinement e = true := by simpa [ms.noRefinement] using h
    cases hq : ms.strictEq x .vundefined with
    | true => exact ⟨true, by simp [ms.eval, ms.undefinable, ms.createValidator, hq]⟩
    | false =>
      obtain ⟨b, hb⟩ := evalTotal e he x
      exact ⟨b, by simp [ms.eval, ms.undefinable, ms.createValidator, hq, hb]⟩
  | .eliteral v, _, x => ⟨_, rfl⟩
  | .eoneOf vs, _, x => ⟨_, rfl⟩
  | .eoneOfType t vs, _, x => ⟨_, rfl⟩
  | .eobject sh, h, x => by
    have hsh : ms.noRefinementShape sh = true := by simpa [ms.noRefinement] using h
    cases hq : ms.strictEq x .vnull with
    | true => exact ⟨false, by simp [ms.eval, ms.object, ms.createValidator, hq]⟩
    | false =>
      cases hbty : (ms.typeof x == "object") with
      | false =>
        have hty : ms.typeof x ≠ "object" := by
          intro hh
          simp [hh] at hbty
        exact ⟨false, by simp [ms.eval, ms.object, ms.createValidator, hq, hty]⟩
      | true =>
        have hty : ms.typeof x = "object" := by simpa using hbty
        have hne : x ≠ .vnull := by
          intro hh
          rw [hh] at hq
          simp [ms.strictEq] at hq
        have hprop := jsGetProp_total x hne hty
        obtain ⟨b, hb⟩ := objectTestGo_total (ms.evalShape sh) x hprop
          (fun p hp y => evalShapeTotal sh hsh p hp y)
        exact ⟨b, by simp [ms.eval, ms.object, ms.createValidator, hq, hty, hb]⟩
  | .earray e, h, x => by
    have he : ms.noRefinement e = true := by simpa [ms.noRefinement] using h
    cases x with
    | varr id es =>
      obtain ⟨b, hb⟩ := arrayEvery_total (ms.eval e) (fun y => evalTotal e he y) es
      exact ⟨b, by simp [ms.eval, ms.array, ms.createValidator, hb]⟩
    | vstr s => exact ⟨false, rfl⟩
    | vnum n => exact ⟨false, rfl⟩
    | vbool b => exact ⟨false, rfl⟩
    | vnull => exact ⟨false, rfl⟩
    | vundefined => exact ⟨false, rfl⟩
    | vobj id fs => exact ⟨false, rfl⟩
    | vsym id => exact ⟨false, rfl⟩
    | vbig i => exact ⟨false, rfl⟩
  | .eunion es, h, x => by
    have hl : ms.noRefinementList es = true := by simpa [ms.noRefinement] using h
    obtain ⟨b, hb⟩ := someTest_total (ms.evalList es) x
      (fun V hV => evalListTotal es hl V hV x)
    exact ⟨b, by simp [ms.eval, ms.union, ms.createValidator, hb]⟩
  | .eintersection es, h, x => by
    have hl : ms.noRefinementList es = true := by simpa [ms.noRefinement] using h
    obtain ⟨b, hb⟩ := everyTest_total (ms.evalList es) x
      (fun V hV => evalListTotal es hl V hV x)
    exact ⟨b, by simp [ms.eval, ms.intersection, ms.createValidator, hb]⟩
  | .emin e m, h, x => by simp [ms.noRefinement] at h
  | .emax e m, h, x => by simp [ms.noRefinement] at h
  | .erange e low high, h, x => by simp [ms.noRefinement] at h
  | .elength e n, h, x => by simp [ms.noRefinement] at h
  | .eminLength e m, h, x => by simp [ms.noRefinement] at h
  | .emaxLength e m, h, x => by simp [ms.noRefinement] at h
  | .erangeLength e low high, h, x => by simp [ms.noRefinement] at h

theorem evalListTotal : ∀ (es : ms.VList), ms.noRefinementList es = true →
    ∀ V ∈ ms.evalList es, ∀ x, ∃ b, V.test x = .ok b
  | .nil, _, V, hV, x => absurd hV (by simp [ms.evalList])
  | .cons e rest, h, V, hV, x => by
    have h2 : ms.noRefinement e = true ∧ ms.noRefinementList rest = true := by
      simpa [ms.noRefinementList, Bool.and_eq_true] using h
    rcases List.mem_cons.mp (by simpa [ms.evalList] using hV) with heq | hmem
    · rw [heq]
      exact evalTotal e h2.1 x
    · exact evalListTotal rest h2.2 V hmem x

theorem evalShapeTotal : ∀ (sh : ms.VShape), ms.noRefinementShape sh = true →
    ∀ p ∈ ms.evalShape sh, ∀ x, ∃ b, p.2.test x = .ok b
  | .nil, _, p, hp, x => absurd hp (by simp [ms.evalShape])
  | .cons key e rest, h, p, hp, x => by
    have h2 : ms.noRefinement e = true ∧ ms.noRefinementShape rest = true := by
      simpa [ms.noRefinementShape, Bool.and_eq_true] using h
    rcases List.mem_cons.mp (by simpa [ms.evalShape] using hp) with heq | hmem
    · rw [heq]
      exact evalTotal e h2.1 x
    · exact evalShapeTotal rest h2.2 p hmem x

end

/-- C1 counterexample: the length refinement over a null-accepting inner
validator throws a TypeError (JS property access `null.length`) instead of
returning false. -/
theorem claim_C1_counterexample :
    (ms.minLength (ms.nullable ms.string) 1).test .vnull = .error .typeError := rfl

/-- C1 (amended): a validator built from the factories without the numeric
and length refinement combinators never throws — its test always returns a
boolean, false on values of a mismatched kind.  (The refinements can throw
a TypeError when the inner validator accepts a value whose JS length
access or numeric coercion throws, e.g. `null`/`undefined` for the length
family or a symbol for the numeric family.) -/
theorem claim_C1_no_refinement_never_throws (e : ms.VExpr)
    (h : ms.noRefinement e = true) (x : ms.JsVal) :
    ∃ b, (ms.eval e).test x = .ok b :=
  evalTotal e h x

theorem claim_C1_witness :
    ms.noRefinement (.enullable (.eunion (.cons .estring (.cons .enumber .nil)))) = true ∧
    ∃ b, (ms.eval (.enullable (.eunion (.cons .estring (.cons .enumber .nil))))).test
      (.vstr "hi") = .ok b :=
  ⟨rfl, claim_C1_no_refinement_never_throws
    (.enullable (.eunion (.cons .estring (.cons .enumber .nil)))) rfl (.vstr "hi")⟩
